import Mathlib

/-!
Shallow embedding of `my_model_selectors.py` and `my_recognizer.py`
(AIND-Recognizer project submission).

The external GaussianHMM collaborator is abstracted: fitting and scoring
are oracle functions supplied in a `ModelSelector` record.  A `none`
result of an oracle stands for a raised Python exception (or, for
`baseFit`, for the `None` that `base_model` returns after catching a fit
failure itself).  Log-likelihood scores are modelled as rationals: the
claims under study only depend on the ordered-field structure of the
score values, never on binary floating point rounding.
-/

set_option autoImplicit false

attribute [local semireducible] Rat.add Rat.mul Rat.sub Rat.inv

namespace ASL

variable {M T : Type}

/-- The per-word state held by `ModelSelector.__init__`, together with the
oracles for the external GaussianHMM collaborator.

* `baseFit n` models `self.base_model(n)`: it runs
  `GaussianHMM(n_components=n, ...).fit(self.X, self.lengths)` inside its own
  `try/except`, so a fit failure yields `none` (Python `None`), never an
  exception.
* `scoreSelf m` models `m.score(self.X, self.lengths)`; `none` models a
  raised exception.
* `otherWordScore` lists, in dict iteration order, the scoring functions
  `fun m => m.score(X, lengths)` for exactly the entries of `self.hwords`
  whose key differs from `self.this_word`.
* `cvFold n i` models fold `i` of `KFold(n_splits=3).split(self.sequences)`
  for a candidate with `n` states: fitting a fresh `GaussianHMM(n, ...)` on
  the combined training-fold sequences and scoring it on the combined
  test-fold sequences; `none` models an exception in either step (neither
  call is guarded inside `cross_validation_model`).
* `numFeatures` models `len(self.X[0])`, `logNumFrames` models
  `math.log(len(self.X))` (the value the `math` library returns for the
  training frame count), `numSequences` models `len(self.sequences)`. -/
structure ModelSelector (M : Type) where
  minN : Nat
  maxN : Nat
  nConstant : Nat
  verbose : Bool
  numFeatures : Nat
  logNumFrames : ℚ
  numSequences : Nat
  baseFit : Nat → Option M
  scoreSelf : M → Option ℚ
  otherWordScore : List (M → Option ℚ)
  cvFold : Nat → Nat → Option (M × ℚ)

/-- `range(self.min_n_components, self.max_n_components)`. -/
def stateRange (env : ModelSelector M) : List Nat :=
  List.range' env.minN (env.maxN - env.minN)

/-- `SelectorConstant.select()`: returns `self.base_model(self.n_constant)`. -/
def selectConstant (env : ModelSelector M) : Option M :=
  env.baseFit env.nConstant

/-- `SelectorBIC.bic_model(num_states)`.  A `none` result models a raised
exception: `hmm_model.score` raising, including the `AttributeError` raised
when `base_model` returned `None`.  `p` is the free-parameter estimate
`num_states*num_states + 2*num_states*len(self.X[0]) - 1` and the returned
score is `-2 * logL + p * logN`. -/
def bicModel (env : ModelSelector M) (n : Nat) : Option (ℚ × M) :=
  match env.baseFit n with
  | none => none
  | some hmmModel =>
    match env.scoreSelf hmmModel with
    | none => none
    | some logL =>
      let p : ℚ := (n : ℚ) * n + 2 * n * env.numFeatures - 1
      some (-2 * logL + p * env.logNumFrames, hmmModel)

/-- The accumulation loop of `SelectorDIC.anti_dic_score`: walks the
other-word scoring functions in order, accumulating `total_score` and
`word_count`; `none` models `hmm_model.score` raising partway through. -/
def antiLoop (m : M) : List (M → Option ℚ) → ℚ → Nat → Option (ℚ × Nat)
  | [], total, count => some (total, count)
  | f :: fs, total, count =>
    match f m with
    | none => none
    | some score => antiLoop m fs (total + score) (count + 1)

/-- `SelectorDIC.anti_dic_score(hmm_model)`: the average of the model's
scores over all words other than `this_word`.  When no other word exists,
`total_score / word_count` raises `ZeroDivisionError`, modelled as `none`. -/
def antiDicScore (env : ModelSelector M) (m : M) : Option ℚ :=
  match antiLoop m env.otherWordScore 0 0 with
  | none => none
  | some (total, count) =>
    if count = 0 then none else some (total / (count : ℚ))

/-- `SelectorDIC.dic_model(num_states)`: evidence minus anti-evidence.
`none` models a raised exception anywhere inside the method. -/
def dicModel (env : ModelSelector M) (n : Nat) : Option (ℚ × M) :=
  match env.baseFit n with
  | none => none
  | some hmmModel =>
    match env.scoreSelf hmmModel with
    | none => none
    | some evidence =>
      match antiDicScore env hmmModel with
      | none => none
      | some antiEvidence => some (evidence - antiEvidence, hmmModel)

/-- The running `best_*_score` and `best_model` of a selection loop.
`bestScore = none` plays the initial `float("-inf")`. -/
structure SearchState (M : Type) where
  bestScore : Option ℚ
  bestModel : Option M
deriving DecidableEq

/-- `score > best_score` where `best_score` may still be `float("-inf")`. -/
def gtBest (s : ℚ) : Option ℚ → Bool
  | none => true
  | some b => decide (b < s)

/-- `score >= best_score` where `best_score` may still be `float("-inf")`. -/
def geBest (s : ℚ) : Option ℚ → Bool
  | none => true
  | some b => decide (b ≤ s)

/-- The shared selection loop of `SelectorBIC.select` / `SelectorDIC.select`
(`for n in range(...)` with an inner `try`).  A failed candidate
(`cand n = none`) is caught by the inner bare `except:`; there, with
`verbose` on, the logging line reads the undefined name `num_states`, so a
`NameError` escapes the loop (result `none`, which the outer handler turns
into `None`); with `verbose` off the handler just `pass`es and the loop
continues with the next `n`. -/
def searchGo (verbose : Bool) (cand : Nat → Option (ℚ × M)) :
    List Nat → SearchState M → Option (SearchState M)
  | [], st => some st
  | n :: ns, st =>
    match cand n with
    | some (score, model) =>
      if gtBest score st.bestScore then
        searchGo verbose cand ns ⟨some score, some model⟩
      else
        searchGo verbose cand ns st
    | none =>
      if verbose then none else searchGo verbose cand ns st

/-- `SelectorBIC.select()`: `best_model` is eagerly initialised to
`self.base_model(self.n_constant)`, the loop maximises the BIC score with a
strict `>`, and the outer bare `except:` turns any escaped exception into
`None`. -/
def selectBIC (env : ModelSelector M) : Option M :=
  match searchGo env.verbose (bicModel env) (stateRange env)
      ⟨none, env.baseFit env.nConstant⟩ with
  | some st => st.bestModel
  | none => none

/-- `SelectorDIC.select()`: identical loop shape to `SelectorBIC.select`,
driven by `dic_model`. -/
def selectDIC (env : ModelSelector M) : Option M :=
  match searchGo env.verbose (dicModel env) (stateRange env)
      ⟨none, env.baseFit env.nConstant⟩ with
  | some st => st.bestModel
  | none => none

/-- The fold loop of `SelectorCV.cross_validation_model`: accumulates
`total_score`, counts `folds`, and remembers the last `training_model`.
`none` models an uncaught exception while fitting or scoring a fold. -/
def cvFoldLoop (fold : Nat → Option (M × ℚ)) :
    List Nat → ℚ → Nat → Option M → Option (ℚ × Nat × Option M)
  | [], total, folds, lastModel => some (total, folds, lastModel)
  | i :: is, total, folds, _ =>
    match fold i with
    | none => none
    | some (trainingModel, score) =>
      cvFoldLoop fold is (total + score) (folds + 1) (some trainingModel)

/-- `SelectorCV.cross_validation_model(num_states, n_splits=3)`.  When
`len(self.sequences) > 3`, `KFold(n_splits=3)` yields exactly the three
folds `0, 1, 2` and the method returns the average score together with the
last fold's `training_model`; otherwise it returns
`(0., self.base_model(self.n_constant))` (whose model part may be `None`). -/
def crossValidationModel (env : ModelSelector M) (n : Nat) : Option (ℚ × Option M) :=
  if 3 < env.numSequences then
    match cvFoldLoop (env.cvFold n) [0, 1, 2] 0 0 none with
    | none => none
    | some (total, folds, lastModel) => some (total / (folds : ℚ), lastModel)
  else
    some (0, env.baseFit env.nConstant)

/-- The selection loop of `SelectorCV.select()`: there is no inner `try`,
the comparison is `>=`, and any exception from `cross_validation_model`
escapes the whole loop (result `none`). -/
def cvGo (cand : Nat → Option (ℚ × Option M)) :
    List Nat → SearchState M → Option (SearchState M)
  | [], st => some st
  | n :: ns, st =>
    match cand n with
    | none => none
    | some (score, model) =>
      if geBest score st.bestScore then cvGo cand ns ⟨some score, model⟩
      else cvGo cand ns st

/-- `SelectorCV.select()`: `best_model` starts as `None`; an escaped
exception is printed and turned into a `None` result by the outer
`except Exception` handler. -/
def selectCV (env : ModelSelector M) : Option M :=
  match cvGo (crossValidationModel env) (stateRange env) ⟨none, none⟩ with
  | some st => st.bestModel
  | none => none

/-- Per-sequence state of `recognize`: `words_prob` (in insertion order),
`guess_word`, and `best_score` (`none` plays `float("-inf")`). -/
structure RecogState where
  probs : List (String × ℚ)
  guess : Option String
  best : Option ℚ
deriving DecidableEq

/-- The body of `for word, model in models.items()` inside `recognize`:
skip falsy (`None`) models; a scoring exception hits the bare `continue`;
otherwise record the score under the word and update the running best on
strict improvement. -/
def recogStep (score : M → T → Option ℚ) (t : T) (st : RecogState)
    (wm : String × Option M) : RecogState :=
  match wm.2 with
  | none => st
  | some model =>
    match score model t with
    | none => st
    | some s =>
      if gtBest s st.best then ⟨st.probs ++ [(wm.1, s)], some wm.1, some s⟩
      else ⟨st.probs ++ [(wm.1, s)], st.guess, st.best⟩

/-- Processing of one test sequence by `recognize`. -/
def recognizeOne (score : M → T → Option ℚ) (models : List (String × Option M))
    (t : T) : RecogState :=
  models.foldl (recogStep score t) ⟨[], none, none⟩

/-- `recognize(models, test_set)`: iterates the test sequences in test-set
insertion order, appending each sequence's `words_prob` to `probabilities`
and its `guess_word` to `guesses`. -/
def recognize (score : M → T → Option ℚ) (models : List (String × Option M))
    (tests : List T) : List (List (String × ℚ)) × List (Option String) :=
  tests.foldl (fun acc t =>
    (acc.1 ++ [(recognizeOne score models t).probs],
     acc.2 ++ [(recognizeOne score models t).guess])) ([], [])

/-- Modelled from the spec (§4.4): the list of per-other-word scores of a
model, used to state the "arithmetic mean" reading of `anti_dic_score`; a
`none` result corresponds to some score call raising. -/
def scoreList (m : M) : List (M → Option ℚ) → Option (List ℚ)
  | [] => some []
  | f :: fs =>
    match f m with
    | none => none
    | some s =>
      match scoreList m fs with
      | none => none
      | some ss => some (s :: ss)

theorem gtBest_none (s : ℚ) : gtBest s none = true := rfl

theorem gtBest_some_iff (s b : ℚ) : gtBest s (some b) = true ↔ b < s := by
  simp [gtBest]

theorem geBest_some_iff (s b : ℚ) : geBest s (some b) = true ↔ b ≤ s := by
  simp [geBest]

theorem searchGo_cons_fail (cand : Nat → Option (ℚ × M)) (st : SearchState M)
    (n : Nat) (ns : List Nat) (h : cand n = none) :
    searchGo false cand (n :: ns) st = searchGo false cand ns st := by
  simp [searchGo, h]

theorem searchGo_false_isSome (cand : Nat → Option (ℚ × M)) :
    ∀ (ns : List Nat) (st : SearchState M), (searchGo false cand ns st).isSome := by
  intro ns
  induction ns with
  | nil => intro st; simp [searchGo]
  | cons n ns ih =>
    intro st
    cases hc : cand n with
    | none => simpa [searchGo, hc] using ih st
    | some p =>
      obtain ⟨s, m⟩ := p
      by_cases hg : gtBest s st.bestScore = true
      · simpa [searchGo, hc, hg] using ih ⟨some s, some m⟩
      · simpa [searchGo, hc, hg] using ih st

theorem searchGo_allFail (cand : Nat → Option (ℚ × M)) :
    ∀ (ns : List Nat) (st : SearchState M), (∀ n ∈ ns, cand n = none) →
      searchGo false cand ns st = some st := by
  intro ns
  induction ns with
  | nil => intro st _; simp [searchGo]
  | cons n ns ih =>
    intro st h
    rw [searchGo_cons_fail cand st n ns (h n (List.mem_cons_self n ns))]
    exact ih st (fun k hk => h k (List.mem_cons_of_mem n hk))

theorem searchGo_allFail_cases (v : Bool) (cand : Nat → Option (ℚ × M)) :
    ∀ (ns : List Nat) (st : SearchState M), (∀ n ∈ ns, cand n = none) →
      searchGo v cand ns st = some st ∨ searchGo v cand ns st = none := by
  intro ns
  induction ns with
  | nil => intro st _; exact Or.inl (by simp [searchGo])
  | cons n ns ih =>
    intro st h
    have hc : cand n = none := h n (List.mem_cons_self n ns)
    cases v with
    | false =>
      rw [searchGo_cons_fail cand st n ns hc]
      exact ih st (fun k hk => h k (List.mem_cons_of_mem n hk))
    | true => exact Or.inr (by simp [searchGo, hc])

theorem searchGo_spec (cand : Nat → Option (ℚ × M)) :
    ∀ (ns : List Nat) (st st' : SearchState M),
      searchGo false cand ns st = some st' →
      ((∀ n ∈ ns, ∀ s m, cand n = some (s, m) →
          ∃ sb, st'.bestScore = some sb ∧ s ≤ sb) ∧
       (st' = st ∨ ∃ n ∈ ns, ∃ s m, cand n = some (s, m) ∧
          st'.bestScore = some s ∧ st'.bestModel = some m) ∧
       (∀ b, st.bestScore = some b → ∃ sb, st'.bestScore = some sb ∧ b ≤ sb)) := by
  intro ns
  induction ns with
  | nil =>
    intro st st' h
    simp [searchGo] at h
    subst h
    exact ⟨by simp, Or.inl rfl, fun b hb => ⟨b, hb, le_refl b⟩⟩
  | cons n ns ih =>
    intro st st' h
    cases hc : cand n with
    | none =>
      rw [searchGo_cons_fail cand st n ns hc] at h
      obtain ⟨H1, H2, H3⟩ := ih st st' h
      refine ⟨?_, ?_, H3⟩
      · intro k hk s m hck
        rcases List.mem_cons.mp hk with hkn | hkm
        · subst hkn; rw [hck] at hc; exact absurd hc (by simp)
        · exact H1 k hkm s m hck
      · rcases H2 with h2 | ⟨k, hk, rest⟩
        · exact Or.inl h2
        · exact Or.inr ⟨k, List.mem_cons_of_mem n hk, rest⟩
    | some p =>
      obtain ⟨s, m⟩ := p
      by_cases hg : gtBest s st.bestScore = true
      · have hstep : searchGo false cand (n :: ns) st
            = searchGo false cand ns ⟨some s, some m⟩ := by
          simp [searchGo, hc, hg]
        rw [hstep] at h
        obtain ⟨H1, H2, H3⟩ := ih ⟨some s, some m⟩ st' h
        have hs' : ∃ sb, st'.bestScore = some sb ∧ s ≤ sb := H3 s rfl
        refine ⟨?_, ?_, ?_⟩
        · intro k hk s1 m1 hck
          rcases List.mem_cons.mp hk with hkn | hkm
          · subst hkn
            rw [hc] at hck
            injection Option.some.inj hck with h1 h2
            subst h1
            exact hs'
          · exact H1 k hkm s1 m1 hck
        · rcases H2 with h2 | ⟨k, hk, rest⟩
          · exact Or.inr ⟨n, List.mem_cons_self n ns, s, m, hc, by rw [h2], by rw [h2]⟩
          · exact Or.inr ⟨k, List.mem_cons_of_mem n hk, rest⟩
        · intro b hb
          rw [hb] at hg
          have hlt : b < s := (gtBest_some_iff s b).mp hg
          obtain ⟨sb, hsb, hle⟩ := hs'
          exact ⟨sb, hsb, le_trans (le_of_lt hlt) hle⟩
      · have hstep : searchGo false cand (n :: ns) st = searchGo false cand ns st := by
          simp [searchGo, hc, hg]
        rw [hstep] at h
        obtain ⟨H1, H2, H3⟩ := ih st st' h
        obtain ⟨b0, hb0, hsb0⟩ : ∃ b0, st.bestScore = some b0 ∧ s ≤ b0 := by
          cases hb0 : st.bestScore with
          | none =>
            rw [hb0] at hg
            exact absurd (gtBest_none s) hg
          | some b0 =>
            refine ⟨b0, rfl, ?_⟩
            rw [hb0] at hg
            exact le_of_not_lt (fun hlt => hg ((gtBest_some_iff s b0).mpr hlt))
        refine ⟨?_, ?_, H3⟩
        · intro k hk s1 m1 hck
          rcases List.mem_cons.mp hk with hkn | hkm
          · subst hkn
            rw [hc] at hck
            injection Option.some.inj hck with h1 h2
            subst h1
            obtain ⟨sb, hsb, hle⟩ := H3 b0 hb0
            exact ⟨sb, hsb, le_trans hsb0 hle⟩
          · exact H1 k hkm s1 m1 hck
        · rcases H2 with h2 | ⟨k, hk, rest⟩
          · exact Or.inl h2
          · exact Or.inr ⟨k, List.mem_cons_of_mem n hk, rest⟩

theorem searchGo_max (cand : Nat → Option (ℚ × M)) (fallback : Option M)
    (ns : List Nat) (n : Nat) (hn : n ∈ ns) (s : ℚ) (m : M)
    (hc : cand n = some (s, m)) (st' : SearchState M)
    (hgo : searchGo false cand ns ⟨none, fallback⟩ = some st') :
    ∃ n', n' ∈ ns ∧ ∃ s' m', cand n' = some (s', m') ∧
      st'.bestModel = some m' ∧ st'.bestScore = some s' ∧ s ≤ s' := by
  obtain ⟨H1, H2, _⟩ := searchGo_spec cand ns ⟨none, fallback⟩ st' hgo
  obtain ⟨sb, hsb, hle⟩ := H1 n hn s m hc
  rcases H2 with h2 | ⟨n', hn', s', m', hc', hsc', hsm'⟩
  · rw [h2] at hsb; exact absurd hsb (by simp)
  · refine ⟨n', hn', s', m', hc', hsm', hsc', ?_⟩
    have hs'sb : s' = sb := by rw [hsc'] at hsb; exact Option.some.inj hsb
    rw [hs'sb]
    exact hle

theorem selectBIC_run (env : ModelSelector M) (hv : env.verbose = false) :
    ∃ st, searchGo env.verbose (bicModel env) (stateRange env)
        ⟨none, env.baseFit env.nConstant⟩ = some st ∧ selectBIC env = st.bestModel := by
  obtain ⟨st, hst⟩ := Option.isSome_iff_exists.mp
    (searchGo_false_isSome (bicModel env) (stateRange env) ⟨none, env.baseFit env.nConstant⟩)
  refine ⟨st, ?_, ?_⟩
  · rw [hv]; exact hst
  · simp only [selectBIC, hv, hst]

theorem selectDIC_run (env : ModelSelector M) (hv : env.verbose = false) :
    ∃ st, searchGo env.verbose (dicModel env) (stateRange env)
        ⟨none, env.baseFit env.nConstant⟩ = some st ∧ selectDIC env = st.bestModel := by
  obtain ⟨st, hst⟩ := Option.isSome_iff_exists.mp
    (searchGo_false_isSome (dicModel env) (stateRange env) ⟨none, env.baseFit env.nConstant⟩)
  refine ⟨st, ?_, ?_⟩
  · rw [hv]; exact hst
  · simp only [selectDIC, hv, hst]

theorem cvGo_fail (cand : Nat → Option (ℚ × Option M)) :
    ∀ (ns : List Nat) (st : SearchState M) (n : Nat), n ∈ ns → cand n = none →
      cvGo cand ns st = none := by
  intro ns
  induction ns with
  | nil => intro st n hn _; exact absurd hn (List.not_mem_nil n)
  | cons k ns ih =>
    intro st n hn hc
    cases hck : cand k with
    | none => simp [cvGo, hck]
    | some p =>
      obtain ⟨s, m⟩ := p
      rcases List.mem_cons.mp hn with h1 | h2
      · subst h1; rw [hck] at hc; exact absurd hc (by simp)
      · by_cases hg : geBest s st.bestScore = true
        · simpa [cvGo, hck, hg] using ih ⟨some s, m⟩ n h2 hc
        · simpa [cvGo, hck, hg] using ih st n h2 hc

theorem cvGo_allFail (cand : Nat → Option (ℚ × Option M)) :
    ∀ (ns : List Nat) (st : SearchState M), (∀ n ∈ ns, cand n = none) →
      cvGo cand ns st = some st ∨ cvGo cand ns st = none := by
  intro ns
  cases ns with
  | nil => intro st _; exact Or.inl (by simp [cvGo])
  | cons n ns =>
    intro st h
    exact Or.inr (by simp [cvGo, h n (List.mem_cons_self n ns)])

theorem antiLoop_some (m : M) :
    ∀ (fs : List (M → Option ℚ)) (ss : List ℚ), scoreList m fs = some ss →
      ∀ (t : ℚ) (c : Nat), antiLoop m fs t c = some (t + ss.sum, c + ss.length) := by
  intro fs
  induction fs with
  | nil =>
    intro ss hss t c
    simp [scoreList] at hss
    subst hss
    simp [antiLoop]
  | cons f fs ih =>
    intro ss hss t c
    cases hf : f m with
    | none => simp [scoreList, hf] at hss
    | some s =>
      cases hss2 : scoreList m fs with
      | none => simp [scoreList, hf, hss2] at hss
      | some ss2 =>
        have hcons : ss = s :: ss2 := by
          simp [scoreList, hf, hss2] at hss
          exact hss.symm
        subst hcons
        have hstep : antiLoop m (f :: fs) t c = antiLoop m fs (t + s) (c + 1) := by
          simp [antiLoop, hf]
        rw [hstep, ih ss2 hss2 (t + s) (c + 1)]
        refine congrArg some (Prod.ext_iff.mpr ⟨?_, ?_⟩)
        · show t + s + ss2.sum = t + (s :: ss2).sum
          rw [List.sum_cons]
          ring
        · show c + 1 + ss2.length = c + (s :: ss2).length
          rw [List.length_cons]
          omega

/-- Invariant of the per-sequence recognition state: the running best score
is witnessed by the recorded guess and dominates every recorded score. -/
def RecogInv (st : RecogState) : Prop :=
  (st.best = none → st.guess = none ∧ st.probs = []) ∧
  (∀ b, st.best = some b →
    (∃ w, st.guess = some w ∧ (w, b) ∈ st.probs) ∧ ∀ p ∈ st.probs, p.2 ≤ b)

theorem recogStep_probs (score : M → T → Option ℚ) (t : T) (st : RecogState) :
    ∀ wm : String × Option M, ∃ l, (recogStep score t st wm).probs = st.probs ++ l := by
  intro wm
  obtain ⟨w, om⟩ := wm
  cases om with
  | none => exact ⟨[], by simp [recogStep]⟩
  | some m =>
    cases hs : score m t with
    | none => exact ⟨[], by simp [recogStep, hs]⟩
    | some s =>
      by_cases hg : gtBest s st.best = true
      · exact ⟨[(w, s)], by simp [recogStep, hs, hg]⟩
      · exact ⟨[(w, s)], by simp [recogStep, hs, hg]⟩

theorem recogFoldl_probs (score : M → T → Option ℚ) (t : T) :
    ∀ (models : List (String × Option M)) (st : RecogState),
      ∃ l, (models.foldl (recogStep score t) st).probs = st.probs ++ l := by
  intro models
  induction models with
  | nil => intro st; exact ⟨[], by simp⟩
  | cons wm models ih =>
    intro st
    obtain ⟨l1, h1⟩ := recogStep_probs score t st wm
    obtain ⟨l2, h2⟩ := ih (recogStep score t st wm)
    exact ⟨l1 ++ l2, by rw [List.foldl_cons, h2, h1, List.append_assoc]⟩

theorem recogFoldl_record (score : M → T → Option ℚ) (t : T) :
    ∀ (models : List (String × Option M)) (st : RecogState) (w : String) (m : M) (s : ℚ),
      (w, some m) ∈ models → score m t = some s →
      (w, s) ∈ (models.foldl (recogStep score t) st).probs := by
  intro models
  induction models with
  | nil => intro st w m s hmem _; exact absurd hmem (List.not_mem_nil _)
  | cons wm models ih =>
    intro st w m s hmem hs
    rcases List.mem_cons.mp hmem with h1 | h2
    · subst h1
      have hrec : (w, s) ∈ (recogStep score t st (w, some m)).probs := by
        by_cases hg : gtBest s st.best = true
        · simp [recogStep, hs, hg]
        · simp [recogStep, hs, hg]
      obtain ⟨l2, h2⟩ := recogFoldl_probs score t models (recogStep score t st (w, some m))
      rw [List.foldl_cons, h2]
      exact List.mem_append_left l2 hrec
    · exact ih (recogStep score t st wm) w m s h2 hs

theorem recogFoldl_absent (score : M → T → Option ℚ) (t : T) :
    ∀ (models : List (String × Option M)) (st : RecogState) (w : String),
      (∀ m, (w, some m) ∈ models → score m t = none) →
      w ∉ st.probs.map Prod.fst →
      w ∉ (models.foldl (recogStep score t) st).probs.map Prod.fst := by
  intro models
  induction models with
  | nil => intro st w _ hst; simpa using hst
  | cons wm models ih =>
    intro st w hall hst
    rw [List.foldl_cons]
    refine ih (recogStep score t st wm) w (fun m hm => hall m (List.mem_cons_of_mem wm hm)) ?_
    obtain ⟨w', om⟩ := wm
    cases om with
    | none => simpa [recogStep] using hst
    | some m =>
      cases hs : score m t with
      | none => simpa [recogStep, hs] using hst
      | some s =>
        have hw' : w' ≠ w := by
          intro he
          have hmem : (w, some m) ∈ (w', some m) :: models := by
            rw [he]
            exact List.mem_cons_self _ _
          have hnone := hall m hmem
          rw [hnone] at hs
          exact Option.noConfusion hs
        have hprobs : (recogStep score t st (w', some m)).probs = st.probs ++ [(w', s)] := by
          by_cases hg : gtBest s st.best = true
          · simp [recogStep, hs, hg]
          · simp [recogStep, hs, hg]
        rw [hprobs, List.map_append]
        intro hmem
        rcases List.mem_append.mp hmem with h1 | h1
        · exact hst h1
        · simp at h1
          exact hw' h1.symm

theorem recogStep_inv (score : M → T → Option ℚ) (t : T) (st : RecogState)
    (wm : String × Option M) (hinv : RecogInv st) : RecogInv (recogStep score t st wm) := by
  obtain ⟨w, om⟩ := wm
  obtain ⟨hnone, hsome⟩ := hinv
  cases om with
  | none => exact ⟨hnone, hsome⟩
  | some m =>
    cases hs : score m t with
    | none =>
      have hstep : recogStep score t st (w, some m) = st := by
        simp [recogStep, hs]
      rw [hstep]
      exact ⟨hnone, hsome⟩
    | some s =>
      by_cases hg : gtBest s st.best = true
      · have hstep : recogStep score t st (w, some m)
            = ⟨st.probs ++ [(w, s)], some w, some s⟩ := by
          simp [recogStep, hs, hg]
        rw [hstep]
        constructor
        · intro hb; exact absurd hb (by simp)
        · intro b hb
          have hbs : b = s := (Option.some.inj hb).symm
          subst hbs
          constructor
          · exact ⟨w, rfl, by simp⟩
          · intro p hp
            rcases List.mem_append.mp hp with h1 | h1
            · cases hb0 : st.best with
              | none =>
                obtain ⟨_, hpe⟩ := hnone hb0
                rw [hpe] at h1
                exact absurd h1 (List.not_mem_nil p)
              | some b0 =>
                have hb0s : b0 < b := by
                  rw [hb0] at hg
                  exact (gtBest_some_iff b b0).mp hg
                obtain ⟨_, hbound⟩ := hsome b0 hb0
                exact le_of_lt (lt_of_le_of_lt (hbound p h1) hb0s)
            · have hp1 := List.mem_singleton.mp h1
              rw [hp1]
      · have hstep : recogStep score t st (w, some m)
            = ⟨st.probs ++ [(w, s)], st.guess, st.best⟩ := by
          simp [recogStep, hs, hg]
        rw [hstep]
        obtain ⟨b0, hb0, hsb0⟩ : ∃ b0, st.best = some b0 ∧ s ≤ b0 := by
          cases hb0 : st.best with
          | none =>
            rw [hb0] at hg
            exact absurd (gtBest_none s) hg
          | some b0 =>
            refine ⟨b0, rfl, ?_⟩
            rw [hb0] at hg
            exact le_of_not_lt (fun hlt => hg ((gtBest_some_iff s b0).mpr hlt))
        constructor
        · intro hb
          rw [hb0] at hb
          exact absurd hb (by simp)
        · intro b hb
          obtain ⟨⟨w0, hw0, hw0mem⟩, hbound⟩ := hsome b hb
          refine ⟨⟨w0, hw0, List.mem_append_left _ hw0mem⟩, ?_⟩
          intro p hp
          rcases List.mem_append.mp hp with h1 | h1
          · exact hbound p h1
          · have hp1 := List.mem_singleton.mp h1
            rw [hp1]
            have hbb0 : b = b0 := by
              rw [hb0] at hb
              exact (Option.some.inj hb).symm
            rw [hbb0]
            exact hsb0

theorem recogFoldl_inv (score : M → T → Option ℚ) (t : T) :
    ∀ (models : List (String × Option M)) (st : RecogState),
      RecogInv st → RecogInv (models.foldl (recogStep score t) st) := by
  intro models
  induction models with
  | nil => intro st h; exact h
  | cons wm models ih =>
    intro st h
    rw [List.foldl_cons]
    exact ih (recogStep score t st wm) (recogStep_inv score t st wm h)

theorem recognizeOne_inv (score : M → T → Option ℚ)
    (models : List (String × Option M)) (t : T) :
    RecogInv (recognizeOne score models t) := by
  refine recogFoldl_inv score t models ⟨[], none, none⟩ ⟨fun _ => ⟨rfl, rfl⟩, ?_⟩
  intro b hb
  exact absurd hb (by simp)

theorem recogFoldl_id (score : M → T → Option ℚ) (t : T) :
    ∀ (models : List (String × Option M)) (st : RecogState),
      (∀ w m, (w, some m) ∈ models → score m t = none) →
      models.foldl (recogStep score t) st = st := by
  intro models
  induction models with
  | nil => intro st _; rfl
  | cons wm models ih =>
    intro st hall
    obtain ⟨w, om⟩ := wm
    have hstep : recogStep score t st (w, om) = st := by
      cases om with
      | none => rfl
      | some m =>
        have hnone := hall w m (List.mem_cons_self _ _)
        simp [recogStep, hnone]
    rw [List.foldl_cons, hstep]
    exact ih st (fun w1 m1 hm1 => hall w1 m1 (List.mem_cons_of_mem _ hm1))

theorem recognize_foldl (score : M → T → Option ℚ) (models : List (String × Option M)) :
    ∀ (tests : List T) (acc : List (List (String × ℚ)) × List (Option String)),
      tests.foldl (fun acc t =>
        (acc.1 ++ [(recognizeOne score models t).probs],
         acc.2 ++ [(recognizeOne score models t).guess])) acc
      = (acc.1 ++ tests.map (fun t => (recognizeOne score models t).probs),
         acc.2 ++ tests.map (fun t => (recognizeOne score models t).guess)) := by
  intro tests
  induction tests with
  | nil => intro acc; simp
  | cons t tests ih =>
    intro acc
    rw [List.foldl_cons, ih]
    simp

/-- A concrete oracle instance over `M = Nat`: candidate state counts 2, 3
and 4 with the fit at 4 states failing, self-score equal to the model tag,
two other words scoring 1 and 3, and folds failing only at 4 states. -/
def envOK : ModelSelector Nat where
  minN := 2
  maxN := 5
  nConstant := 3
  verbose := false
  numFeatures := 2
  logNumFrames := 1
  numSequences := 5
  baseFit := fun n => if n = 4 then none else some n
  scoreSelf := fun m => some (m : ℚ)
  otherWordScore := [fun _ => some 1, fun _ => some 3]
  cvFold := fun n i => if n = 4 then none else some (10 * n + i, (n : ℚ))

/-- A concrete oracle instance where every fit, score and fold fails. -/
def envAllFail : ModelSelector Nat where
  minN := 2
  maxN := 4
  nConstant := 3
  verbose := false
  numFeatures := 1
  logNumFrames := 1
  numSequences := 5
  baseFit := fun _ => none
  scoreSelf := fun _ => none
  otherWordScore := []
  cvFold := fun _ _ => none

/-- A concrete oracle instance with only three training sequences, so
`cross_validation_model` takes its no-folding branch. -/
def envFew : ModelSelector Nat where
  minN := 2
  maxN := 4
  nConstant := 3
  verbose := false
  numFeatures := 1
  logNumFrames := 1
  numSequences := 3
  baseFit := fun n => some (100 + n)
  scoreSelf := fun _ => some 0
  otherWordScore := []
  cvFold := fun _ _ => none

/-- A concrete oracle instance with an empty candidate range. -/
def envEmptyRange : ModelSelector Nat where
  minN := 5
  maxN := 3
  nConstant := 4
  verbose := false
  numFeatures := 1
  logNumFrames := 1
  numSequences := 5
  baseFit := fun n => some n
  scoreSelf := fun m => some (m : ℚ)
  otherWordScore := []
  cvFold := fun _ _ => none

/-- A concrete oracle instance whose cross-validation folds raise at the
first candidate (2 states) but succeed at the second (3 states). -/
def cvEnvFailFirst : ModelSelector Nat where
  minN := 2
  maxN := 4
  nConstant := 5
  verbose := false
  numFeatures := 1
  logNumFrames := 1
  numSequences := 4
  baseFit := fun n => some n
  scoreSelf := fun m => some (m : ℚ)
  otherWordScore := []
  cvFold := fun n i => if n = 3 then some (30 + i, 1) else none

/-- A concrete oracle instance whose cross-validation folds succeed at the
first candidate (2 states) but raise at the second (3 states). -/
def cvEnvFailSecond : ModelSelector Nat where
  minN := 2
  maxN := 4
  nConstant := 5
  verbose := false
  numFeatures := 1
  logNumFrames := 1
  numSequences := 4
  baseFit := fun n => some n
  scoreSelf := fun m => some (m : ℚ)
  otherWordScore := []
  cvFold := fun n i => if n = 2 then some (20 + i, 1) else none

/-- A concrete oracle instance whose two candidates reach the same average
cross-validation score. -/
def cvEnvTie : ModelSelector Nat where
  minN := 2
  maxN := 4
  nConstant := 3
  verbose := false
  numFeatures := 1
  logNumFrames := 1
  numSequences := 4
  baseFit := fun n => some n
  scoreSelf := fun m => some (m : ℚ)
  otherWordScore := []
  cvFold := fun n i => some (10 * n + i, 5)

/-- The scoring oracle used in the recognizer examples: model tag 99 always
raises, any other model scores tag plus sequence id. -/
def demoScore : Nat → Nat → Option ℚ := fun m t => if m = 99 then none else some (m + t)

/-- The word-to-model mapping used in the recognizer examples. -/
def demoModels : List (String × Option Nat) :=
  [("hello", some 5), ("skip", none), ("bad", some 99), ("world", some 9)]

/-- A word-to-model mapping none of whose entries can score anything. -/
def demoFailModels : List (String × Option Nat) :=
  [("w1", none), ("w2", some 99)]

/-- Claim C1 counterexample: in `SelectorCV.select` a fit/score failure
while evaluating candidate `n = 2` is not caught inside that iteration:
the search does not merely disqualify `n = 2` and move on to `n = 3`
(which would evaluate fine), it aborts the whole loop and the `select()`
call yields `None`. -/
theorem c1_counterexample :
    (2 ∈ stateRange cvEnvFailFirst ∧ 3 ∈ stateRange cvEnvFailFirst) ∧
    crossValidationModel cvEnvFailFirst 2 = none ∧
    crossValidationModel cvEnvFailFirst 3 = some (1, some 32) ∧
    selectCV cvEnvFailFirst = none :=
  ⟨⟨by decide, by decide⟩, by decide, by decide, by decide⟩

/-- Claim C1 (amended): with verbose logging off, a per-`n` fit or score
failure in the BIC and DIC searches is caught inside that iteration — the
running state is kept unchanged and the loop continues with the next `n` —
and the whole search always completes, `select()` returning its final best
model; in the CV search a per-`n` failure instead escapes the loop (the
outer handler then returns `None`), so later candidates are never tried. -/
theorem c1_perN_failure_policy (M : Type) (env : ModelSelector M)
    (hv : env.verbose = false) :
    (∀ (st : SearchState M) (n : Nat) (ns : List Nat), bicModel env n = none →
      searchGo env.verbose (bicModel env) (n :: ns) st
        = searchGo env.verbose (bicModel env) ns st) ∧
    (∀ (st : SearchState M) (n : Nat) (ns : List Nat), dicModel env n = none →
      searchGo env.verbose (dicModel env) (n :: ns) st
        = searchGo env.verbose (dicModel env) ns st) ∧
    (∃ st, searchGo env.verbose (bicModel env) (stateRange env)
        ⟨none, env.baseFit env.nConstant⟩ = some st ∧ selectBIC env = st.bestModel) ∧
    (∃ st, searchGo env.verbose (dicModel env) (stateRange env)
        ⟨none, env.baseFit env.nConstant⟩ = some st ∧ selectDIC env = st.bestModel) ∧
    (∀ (st : SearchState M) (n : Nat) (ns : List Nat), crossValidationModel env n = none →
      cvGo (crossValidationModel env) (n :: ns) st = none) := by
  refine ⟨?_, ?_, selectBIC_run env hv, selectDIC_run env hv, ?_⟩
  · intro st n ns h
    rw [hv]
    exact searchGo_cons_fail (bicModel env) st n ns h
  · intro st n ns h
    rw [hv]
    exact searchGo_cons_fail (dicModel env) st n ns h
  · intro st n ns h
    simp [cvGo, h]

/-- Witness for the amended C1 at concrete oracles. -/
theorem c1_witness :
    envOK.verbose = false ∧ bicModel envOK 4 = none ∧
    searchGo envOK.verbose (bicModel envOK) [4] ⟨none, some 0⟩
      = searchGo envOK.verbose (bicModel envOK) [] ⟨none, some 0⟩ ∧
    crossValidationModel cvEnvFailFirst 2 = none ∧
    cvGo (crossValidationModel cvEnvFailFirst) [2, 3] ⟨none, none⟩ = none := by
  refine ⟨rfl, by decide, ?_, by decide, ?_⟩
  · exact (c1_perN_failure_policy Nat envOK rfl).1 ⟨none, some 0⟩ 4 [] (by decide)
  · exact (c1_perN_failure_policy Nat cvEnvFailFirst rfl).2.2.2.2 ⟨none, none⟩ 2 [3] (by decide)

/-- Claim C2 counterexample: for `SelectorCV`, the candidate with 2 states
fits and scores successfully, yet `select()` returns `None` because the
next candidate raises — so a successful fit does not guarantee a Model. -/
theorem c2_counterexample :
    2 ∈ stateRange cvEnvFailSecond ∧
    crossValidationModel cvEnvFailSecond 2 = some (1, some 22) ∧
    selectCV cvEnvFailSecond = none :=
  ⟨by decide, by decide, by decide⟩

/-- Claim C2 (amended): for the BIC and DIC selectors (verbose logging
off), if at least one candidate in the search range fits and scores
successfully then `select()` returns a Model, never `None`; the CV
selector does not satisfy the invariant. -/
theorem c2_select_some_of_success (M : Type) (env : ModelSelector M)
    (hv : env.verbose = false) :
    (∀ n ∈ stateRange env, ∀ (s : ℚ) (m : M), bicModel env n = some (s, m) →
      ∃ m', selectBIC env = some m') ∧
    (∀ n ∈ stateRange env, ∀ (s : ℚ) (m : M), dicModel env n = some (s, m) →
      ∃ m', selectDIC env = some m') := by
  constructor
  · intro n hn s m hc
    obtain ⟨st, hgo, hsel⟩ := selectBIC_run env hv
    rw [hv] at hgo
    obtain ⟨n', hn', s', m', hc', hbm, hbs, hle⟩ :=
      searchGo_max (bicModel env) (env.baseFit env.nConstant) (stateRange env) n hn s m hc st hgo
    exact ⟨m', by rw [hsel, hbm]⟩
  · intro n hn s m hc
    obtain ⟨st, hgo, hsel⟩ := selectDIC_run env hv
    rw [hv] at hgo
    obtain ⟨n', hn', s', m', hc', hbm, hbs, hle⟩ :=
      searchGo_max (dicModel env) (env.baseFit env.nConstant) (stateRange env) n hn s m hc st hgo
    exact ⟨m', by rw [hsel, hbm]⟩

/-- Witness for the amended C2 at a concrete oracle. -/
theorem c2_witness :
    (2 ∈ stateRange envOK ∧ bicModel envOK 2 = some (7, 2)
      ∧ dicModel envOK 2 = some (0, 2)) ∧
    (∃ m', selectBIC envOK = some m') ∧
    (∃ m', selectDIC envOK = some m') := by
  refine ⟨⟨by decide, by decide, by decide⟩, ?_, ?_⟩
  · exact (c2_select_some_of_success Nat envOK rfl).1 2 (by decide) 7 2 (by decide)
  · exact (c2_select_some_of_success Nat envOK rfl).2 2 (by decide) 0 2 (by decide)

/-- Claim C3: `SelectorBIC.select` computes, for each candidate that fits
and scores, `BIC(n) = -2*logL + p*logN` with `p = n*n + 2*n*F - 1`; it
returns the model of a successfully-evaluated candidate whose BIC value is
maximal among all successfully-evaluated candidates; and when every
candidate fails it returns the eagerly built `n_constant` model. -/
theorem c3_selectBIC_correct (M : Type) (env : ModelSelector M)
    (hv : env.verbose = false) :
    (∀ (n : Nat) (m : M) (logL : ℚ), env.baseFit n = some m → env.scoreSelf m = some logL →
      bicModel env n
        = some (-2 * logL + ((n : ℚ) * n + 2 * n * env.numFeatures - 1) * env.logNumFrames, m)) ∧
    (∀ n ∈ stateRange env, ∀ (s : ℚ) (m : M), bicModel env n = some (s, m) →
      ∃ n', n' ∈ stateRange env ∧ ∃ s' m', bicModel env n' = some (s', m') ∧
        selectBIC env = some m' ∧ s ≤ s') ∧
    ((∀ n ∈ stateRange env, bicModel env n = none) →
      selectBIC env = env.baseFit env.nConstant) := by
  refine ⟨?_, ?_, ?_⟩
  · intro n m logL hfit hscore
    simp [bicModel, hfit, hscore]
  · intro n hn s m hc
    obtain ⟨st, hgo, hsel⟩ := selectBIC_run env hv
    rw [hv] at hgo
    obtain ⟨n', hn', s', m', hc', hbm, hbs, hle⟩ :=
      searchGo_max (bicModel env) (env.baseFit env.nConstant) (stateRange env) n hn s m hc st hgo
    exact ⟨n', hn', s', m', hc', by rw [hsel, hbm], hle⟩
  · intro hall
    obtain ⟨st, hgo, hsel⟩ := selectBIC_run env hv
    rw [hv] at hgo
    rw [searchGo_allFail (bicModel env) (stateRange env) _ hall] at hgo
    have hst := Option.some.inj hgo
    rw [hsel, ← hst]

/-- Witness for C3 at concrete oracles. -/
theorem c3_witness :
    bicModel envOK 2 = some (7, 2) ∧
    (∃ n', n' ∈ stateRange envOK ∧ ∃ s' m', bicModel envOK n' = some (s', m') ∧
      selectBIC envOK = some m' ∧ (7 : ℚ) ≤ s') ∧
    selectBIC envAllFail = envAllFail.baseFit envAllFail.nConstant := by
  refine ⟨?_, ?_, ?_⟩
  · have h := (c3_selectBIC_correct Nat envOK rfl).1 2 2 2 (by decide) (by decide)
    rw [h]
    decide
  · exact (c3_selectBIC_correct Nat envOK rfl).2.1 2 (by decide) 7 2 (by decide)
  · exact (c3_selectBIC_correct Nat envAllFail rfl).2.2 (by decide)

/-- Claim C4: `SelectorDIC.select` computes, for each candidate that fully
evaluates, `DIC(n)` = own-word score minus the arithmetic mean of the
model's scores on every other word's data, and the returned model's DIC
value is greater than or equal to that of every successfully-evaluated
candidate in the range. -/
theorem c4_selectDIC_correct (M : Type) (env : ModelSelector M)
    (hv : env.verbose = false) :
    (∀ (n : Nat) (m : M) (ev : ℚ) (ss : List ℚ),
      env.baseFit n = some m → env.scoreSelf m = some ev →
      scoreList m env.otherWordScore = some ss → ss ≠ [] →
      dicModel env n = some (ev - ss.sum / (ss.length : ℚ), m)) ∧
    (∀ n ∈ stateRange env, ∀ (s : ℚ) (m : M), dicModel env n = some (s, m) →
      ∃ n', n' ∈ stateRange env ∧ ∃ s' m', dicModel env n' = some (s', m') ∧
        selectDIC env = some m' ∧ s ≤ s') := by
  constructor
  · intro n m ev ss hfit hscore hss hne
    have hloop := antiLoop_some m env.otherWordScore ss hss 0 0
    have hlen : ss.length ≠ 0 := fun h => hne (List.eq_nil_of_length_eq_zero h)
    have hanti : antiDicScore env m = some (ss.sum / (ss.length : ℚ)) := by
      simp [antiDicScore, hloop, hlen]
    simp [dicModel, hfit, hscore, hanti]
  · intro n hn s m hc
    obtain ⟨st, hgo, hsel⟩ := selectDIC_run env hv
    rw [hv] at hgo
    obtain ⟨n', hn', s', m', hc', hbm, hbs, hle⟩ :=
      searchGo_max (dicModel env) (env.baseFit env.nConstant) (stateRange env) n hn s m hc st hgo
    exact ⟨n', hn', s', m', hc', by rw [hsel, hbm], hle⟩

/-- Witness for C4 at a concrete oracle. -/
theorem c4_witness :
    dicModel envOK 2 = some (0, 2) ∧
    (∃ n', n' ∈ stateRange envOK ∧ ∃ s' m', dicModel envOK n' = some (s', m') ∧
      selectDIC envOK = some m' ∧ (0 : ℚ) ≤ s') := by
  constructor
  · have h := (c4_selectDIC_correct Nat envOK rfl).1 2 2 2 [1, 3]
      (by decide) (by decide) (by decide) (by decide)
    rw [h]
    decide
  · exact (c4_selectDIC_correct Nat envOK rfl).2 2 (by decide) 0 2 (by decide)

/-- Claim C5: `SelectorCV.cross_validation_model(n)` with more than 3
training sequences runs the 3 folds, returns the average of the per-fold
test scores and the last fold's fitted model; with 3 or fewer sequences it
returns score `0.0` paired with `base_model(n_constant)`. -/
theorem c5_crossValidationModel_correct (M : Type) (env : ModelSelector M) (n : Nat) :
    (∀ (m0 : M) (s0 : ℚ) (m1 : M) (s1 : ℚ) (m2 : M) (s2 : ℚ), 3 < env.numSequences →
      env.cvFold n 0 = some (m0, s0) → env.cvFold n 1 = some (m1, s1) →
      env.cvFold n 2 = some (m2, s2) →
      crossValidationModel env n = some ((s0 + s1 + s2) / 3, some m2)) ∧
    (env.numSequences ≤ 3 →
      crossValidationModel env n = some (0, env.baseFit env.nConstant)) := by
  constructor
  · intro m0 s0 m1 s1 m2 s2 hgt h0 h1 h2
    have hloop : cvFoldLoop (env.cvFold n) [0, 1, 2] 0 0 none
        = some (0 + s0 + s1 + s2, 3, some m2) := by
      simp [cvFoldLoop, h0, h1, h2]
    simp [crossValidationModel, hgt, hloop]
  · intro hle
    have hnot : ¬ 3 < env.numSequences := not_lt.mpr hle
    simp [crossValidationModel, hnot]

/-- Witness for C5 at concrete oracles, covering both branches. -/
theorem c5_witness :
    crossValidationModel envOK 2 = some (2, some 22) ∧
    crossValidationModel envFew 2 = some (0, envFew.baseFit envFew.nConstant) := by
  constructor
  · have h := (c5_crossValidationModel_correct Nat envOK 2).1 20 2 21 2 22 2
      (by decide) (by decide) (by decide) (by decide)
    rw [h]
    decide
  · exact (c5_crossValidationModel_correct Nat envFew 2).2 (by decide)

/-- Claim C6: `SelectorCV.select` tracks the best candidate with a `>=`
comparison, so an equal-scoring later candidate replaces the earlier one
(with two tied candidates the larger `n` wins), and any exception escaping
the loop makes `select()` return `None` with no `n_constant` fallback. -/
theorem c6_selectCV_tiebreak_abort (M : Type) (env : ModelSelector M) :
    (∀ (st : SearchState M) (n : Nat) (ns : List Nat) (s : ℚ) (m : Option M),
      crossValidationModel env n = some (s, m) → st.bestScore = some s →
      cvGo (crossValidationModel env) (n :: ns) st
        = cvGo (crossValidationModel env) ns ⟨some s, m⟩) ∧
    (∀ (n1 n2 : Nat) (s : ℚ) (m1 m2 : Option M),
      crossValidationModel env n1 = some (s, m1) →
      crossValidationModel env n2 = some (s, m2) →
      cvGo (crossValidationModel env) [n1, n2] ⟨none, none⟩ = some ⟨some s, m2⟩) ∧
    (∀ n ∈ stateRange env, crossValidationModel env n = none → selectCV env = none) := by
  refine ⟨?_, ?_, ?_⟩
  · intro st n ns s m hc hb
    have hge : geBest s st.bestScore = true := by
      rw [hb]
      exact (geBest_some_iff s s).mpr (le_refl s)
    simp [cvGo, hc, hge]
  · intro n1 n2 s m1 m2 h1 h2
    have hge : geBest s (some s) = true := (geBest_some_iff s s).mpr (le_refl s)
    simp [cvGo, h1, h2, geBest, hge]
  · intro n hn hc
    have h := cvGo_fail (crossValidationModel env) (stateRange env) ⟨none, none⟩ n hn hc
    simp [selectCV, h]

/-- Witness for C6 at concrete oracles: on a tie the later candidate's
model (tag 32, from 3 states) wins, and a failing fold aborts to `None`. -/
theorem c6_witness :
    cvGo (crossValidationModel cvEnvTie) [2, 3] ⟨none, none⟩ = some ⟨some 5, some 32⟩ ∧
    selectCV cvEnvFailFirst = none := by
  constructor
  · have h1 : crossValidationModel cvEnvTie 2 = some (5, some 22) := by decide
    have h2 : crossValidationModel cvEnvTie 3 = some (5, some 32) := by decide
    exact (c6_selectCV_tiebreak_abort Nat cvEnvTie).2.1 2 3 5 (some 22) (some 32) h1 h2
  · exact (c6_selectCV_tiebreak_abort Nat cvEnvFailFirst).2.2 2 (by decide) (by decide)

/-- Claim C7: per test sequence, `recognize` skips `None` models, records
every successful score in the sequence's score map, omits words whose
model fails to score, and guesses a word whose recorded score is maximal
(tracking with a strict `>`). -/
theorem c7_recognizeOne_correct (M T : Type) (score : M → T → Option ℚ)
    (models : List (String × Option M)) (t : T) :
    (∀ (st : RecogState) (w : String), recogStep score t st (w, none) = st) ∧
    (∀ (w : String) (m : M) (s : ℚ), (w, some m) ∈ models → score m t = some s →
      (w, s) ∈ (recognizeOne score models t).probs) ∧
    (∀ w : String, (∀ m : M, (w, some m) ∈ models → score m t = none) →
      w ∉ (recognizeOne score models t).probs.map Prod.fst) ∧
    ((recognizeOne score models t).best = none →
      (recognizeOne score models t).guess = none
        ∧ (recognizeOne score models t).probs = []) ∧
    (∀ b : ℚ, (recognizeOne score models t).best = some b →
      (∃ w, (recognizeOne score models t).guess = some w ∧
        (w, b) ∈ (recognizeOne score models t).probs) ∧
      ∀ p ∈ (recognizeOne score models t).probs, p.2 ≤ b) := by
  obtain ⟨hinv1, hinv2⟩ := recognizeOne_inv score models t
  refine ⟨fun st w => rfl, ?_, ?_, hinv1, hinv2⟩
  · intro w m s hmem hs
    exact recogFoldl_record score t models ⟨[], none, none⟩ w m s hmem hs
  · intro w hall
    exact recogFoldl_absent score t models ⟨[], none, none⟩ w hall (by simp)

/-- Witness for C7 at a concrete model table and test sequence. -/
theorem c7_witness :
    ("hello", (6 : ℚ)) ∈ (recognizeOne demoScore demoModels 1).probs ∧
    "bad" ∉ ((recognizeOne demoScore demoModels 1).probs.map Prod.fst) ∧
    ((∃ w, (recognizeOne demoScore demoModels 1).guess = some w ∧
        (w, (10 : ℚ)) ∈ (recognizeOne demoScore demoModels 1).probs) ∧
      ∀ p ∈ (recognizeOne demoScore demoModels 1).probs, p.2 ≤ (10 : ℚ)) := by
  refine ⟨?_, ?_, ?_⟩
  · exact (c7_recognizeOne_correct Nat Nat demoScore demoModels 1).2.1
      "hello" 5 6 (by decide) (by decide)
  · refine (c7_recognizeOne_correct Nat Nat demoScore demoModels 1).2.2.1 "bad" ?_
    intro m hm
    simp [demoModels] at hm
    subst hm
    decide
  · exact (c7_recognizeOne_correct Nat Nat demoScore demoModels 1).2.2.2.2 10 (by decide)

/-- Claim C8: `recognize` returns one score map and one guess per test
sequence, in test-set order, and a sequence none of whose models scores
gets a `None` guess. -/
theorem c8_recognize_correct (M T : Type) (score : M → T → Option ℚ)
    (models : List (String × Option M)) (tests : List T) :
    (recognize score models tests).1
      = tests.map (fun t => (recognizeOne score models t).probs) ∧
    (recognize score models tests).2
      = tests.map (fun t => (recognizeOne score models t).guess) ∧
    (recognize score models tests).1.length = tests.length ∧
    (recognize score models tests).2.length = tests.length ∧
    (∀ t : T, (∀ (w : String) (m : M), (w, some m) ∈ models → score m t = none) →
      (recognizeOne score models t).guess = none) := by
  have h12 : recognize score models tests
      = (tests.map (fun t => (recognizeOne score models t).probs),
         tests.map (fun t => (recognizeOne score models t).guess)) := by
    simp only [recognize]
    rw [recognize_foldl score models tests ([], [])]
    simp
  refine ⟨by rw [h12], by rw [h12], by rw [h12]; simp, by rw [h12]; simp, ?_⟩
  intro t hall
  have h := recogFoldl_id score t models ⟨[], none, none⟩ hall
  simp only [recognizeOne, h]

/-- Witness for C8 at concrete inputs, covering the all-fail guess. -/
theorem c8_witness :
    (recognize demoScore demoModels [1, 2]).2.length = 2 ∧
    (recognizeOne demoScore demoFailModels 1).guess = none := by
  constructor
  · have h := (c8_recognize_correct Nat Nat demoScore demoModels [1, 2]).2.2.2.1
    rw [h]
    decide
  · refine (c8_recognize_correct Nat Nat demoScore demoFailModels [1]).2.2.2.2 1 ?_
    intro w m hm
    simp [demoFailModels] at hm
    obtain ⟨hw, hm99⟩ := hm
    subst hm99
    decide

/-- Claim C9: every strategy's `select()` absorbs fit/score failures into a
`Model`-or-`None` result — the constant selector returns the guarded
`base_model` result and, even when every candidate in the range fails, the
BIC/DIC searches return their fallback or `None` and the CV search returns
`None`, never letting an exception escape. -/
theorem c9_select_total (M : Type) (env : ModelSelector M) :
    selectConstant env = env.baseFit env.nConstant ∧
    ((∀ n ∈ stateRange env, bicModel env n = none) →
      selectBIC env = env.baseFit env.nConstant ∨ selectBIC env = none) ∧
    ((∀ n ∈ stateRange env, dicModel env n = none) →
      selectDIC env = env.baseFit env.nConstant ∨ selectDIC env = none) ∧
    ((∀ n ∈ stateRange env, crossValidationModel env n = none) → selectCV env = none) := by
  refine ⟨rfl, ?_, ?_, ?_⟩
  · intro hall
    rcases searchGo_allFail_cases env.verbose (bicModel env) (stateRange env)
        ⟨none, env.baseFit env.nConstant⟩ hall with h | h
    · exact Or.inl (by simp [selectBIC, h])
    · exact Or.inr (by simp [selectBIC, h])
  · intro hall
    rcases searchGo_allFail_cases env.verbose (dicModel env) (stateRange env)
        ⟨none, env.baseFit env.nConstant⟩ hall with h | h
    · exact Or.inl (by simp [selectDIC, h])
    · exact Or.inr (by simp [selectDIC, h])
  · intro hall
    rcases cvGo_allFail (crossValidationModel env) (stateRange env) ⟨none, none⟩ hall with h | h
    · simp [selectCV, h]
    · simp [selectCV, h]

/-- Witness for C9 at an oracle where every fit, score and fold fails. -/
theorem c9_witness :
    selectConstant envAllFail = envAllFail.baseFit envAllFail.nConstant ∧
    (selectBIC envAllFail = envAllFail.baseFit envAllFail.nConstant
      ∨ selectBIC envAllFail = none) ∧
    (selectDIC envAllFail = envAllFail.baseFit envAllFail.nConstant
      ∨ selectDIC envAllFail = none) ∧
    selectCV envAllFail = none := by
  refine ⟨(c9_select_total Nat envAllFail).1,
    (c9_select_total Nat envAllFail).2.1 (by decide),
    (c9_select_total Nat envAllFail).2.2.1 (by decide),
    (c9_select_total Nat envAllFail).2.2.2 (by decide)⟩

/-- Claim C10: with an empty candidate range (`minStates >= maxStates`),
BIC and DIC return the eagerly built `n_constant` model while CV returns
`None` (its best model is initialised to `None` and never updated). -/
theorem c10_select_empty_range (M : Type) (env : ModelSelector M)
    (h : env.maxN ≤ env.minN) :
    selectBIC env = env.baseFit env.nConstant ∧
    selectDIC env = env.baseFit env.nConstant ∧
    selectCV env = none := by
  have hr : stateRange env = [] := by
    simp [stateRange, Nat.sub_eq_zero_of_le h]
  refine ⟨?_, ?_, ?_⟩
  · simp [selectBIC, hr, searchGo]
  · simp [selectDIC, hr, searchGo]
  · simp [selectCV, hr, cvGo]

/-- Witness for C10 at a concrete oracle with an empty range. -/
theorem c10_witness :
    envEmptyRange.maxN ≤ envEmptyRange.minN ∧
    (selectBIC envEmptyRange = envEmptyRange.baseFit envEmptyRange.nConstant ∧
     selectDIC envEmptyRange = envEmptyRange.baseFit envEmptyRange.nConstant ∧
     selectCV envEmptyRange = none) :=
  ⟨by decide, c10_select_empty_range Nat envEmptyRange (by decide)⟩

end ASL
